import Mathlib

/-!
Verification development for the BLOX-TAK-CoT replay script (replay_cot.py).

The script is a single-threaded pipeline: parse a text log for position
records, filter them by a time window, and send each as a CoT XML event
over a one-shot TLS connection.  We shallowly embed the three pieces the
claims are about:

* the log scanner `parse_log_for_positions` (replay_cot.py lines 40-68),
  including a faithful model of the Python regular expression
  `(<timestamp>) - INFO - CoT for .*: lat=(-?\d+\.\d+), lon=(-?\d+\.\d+), alt=(\d+\.\d+)`
  where `<timestamp>` is four digits, dash, two digits, dash, two digits,
  space, two digits, colon, two digits, colon, two digits, comma, three
  digits, applied with `re.search` semantics (leftmost starting position,
  greedy backtracking for `.*` and for the digit runs);
* the sender `send_cot_to_tak` (lines 70-132), modelled as a straight-line
  function over an exception oracle `SendEnv` that says which of the
  real-world calls (socket creation, TLS wrap, connect, sendall, recv)
  raises which Python exception;
* the replay driver loop of `main` (lines 159-164).

Modelling conventions:
* `\d` is modelled as the ASCII digits 0-9 (`Char.isDigit`); Python `re`
  is Unicode-aware but the log format at hand is ASCII.
* floats are modelled as exact rationals (the decimal value denoted by the
  captured text); IEEE-754 rounding performed by Python `float()` is not
  modelled, and no claim depends on it.
* `dateutil.parser.parse` is only ever applied to strings of the shape
  `YYYY-MM-DD HH:MM:SS,mmm` (guaranteed by the regular expression), where
  it returns the evident `datetime` when the fields form a valid calendar
  date-time and raises `ValueError` otherwise; `parseTimestamp` models
  exactly that domain.
* lines produced by iterating a text file never contain an interior
  newline, and the trailing newline can never be part of a match (every
  pattern position after a potential newline requires a non-newline
  character), so lines are modelled as newline-free `List Char`.
-/

/-- Property that every character of a list is an ASCII digit. -/
def digitsOnly (l : List Char) : Prop := ∀ c ∈ l, c.isDigit = true

instance (l : List Char) : Decidable (digitsOnly l) := by
  unfold digitsOnly; infer_instance

/-- Matcher for a literal: consumes `lit` from the front of the input and
returns the rest, or fails. -/
def chompLit : List Char → List Char → Option (List Char)
  | [], cs => some cs
  | _ :: _, [] => none
  | l :: ls, c :: cs => if c = l then chompLit ls cs else none

/-- Matcher for exactly `n` ASCII digits, returning the digits and the rest.
This models a fixed-width digit group of the pattern (four digits for the
year, two for the month, and so on). -/
def chompDigitsExact : Nat → List Char → Option (List Char × List Char)
  | 0, cs => some ([], cs)
  | _ + 1, [] => none
  | n + 1, c :: cs =>
    if c.isDigit then
      match chompDigitsExact n cs with
      | some (ds, rest) => some (c :: ds, rest)
      | none => none
    else none

/-- Matcher for a maximal nonempty run of ASCII digits.  This models the
greedy `\d+`: the run returned is the longest one, exactly as the Python
regular expression engine captures it. -/
def chompDigits1 : List Char → Option (List Char × List Char)
  | [] => none
  | c :: cs =>
    if c.isDigit then
      match chompDigits1 cs with
      | some (run, rest) => some (c :: run, rest)
      | none => some ([c], cs)
    else none

/-- Numeric value of a digit string, most significant digit first. -/
def digitsToNat (l : List Char) : Nat :=
  l.foldl (fun a c => a * 10 + (c.toNat - 48)) 0

/-- Captured decimal field of the pattern: optional minus sign, integer
digits, a mandatory dot, fractional digits. -/
structure RawDec where
  neg : Bool
  ip : List Char
  fp : List Char
  deriving DecidableEq, Repr

/-- Text denoted by a captured decimal field. -/
def decString (d : RawDec) : List Char :=
  (if d.neg then ['-'] else []) ++ d.ip ++ '.' :: d.fp

/-- Matcher for `\d+\.\d+` after an already-consumed optional sign: a
greedy digit run, a dot, a greedy digit run, recorded with the given sign
flag. -/
def chompDec (neg : Bool) (cs : List Char) : Option (RawDec × List Char) :=
  match chompDigits1 cs with
  | none => none
  | some (ipRun, cs2) =>
    match cs2 with
    | '.' :: cs3 =>
      match chompDigits1 cs3 with
      | none => none
      | some (fpRun, cs4) => some (⟨neg, ipRun, fpRun⟩, cs4)
    | _ => none

/-- Matcher for `-?\d+\.\d+` (the lat and lon groups). -/
def chompSignedDec (cs : List Char) : Option (RawDec × List Char) :=
  match cs with
  | [] => chompDec false []
  | c :: t => if c = '-' then chompDec true t else chompDec false (c :: t)

/-- Matcher for `\d+\.\d+` (the alt group, which admits no sign). -/
def chompUnsignedDec (cs : List Char) : Option (RawDec × List Char) :=
  chompDec false cs

/-- Captured timestamp group, already split into its fixed-width numeric
fields `YYYY-MM-DD HH:MM:SS,mmm`. -/
structure RawTs where
  y : Nat
  mo : Nat
  d : Nat
  h : Nat
  mi : Nat
  s : Nat
  ms : Nat
  deriving DecidableEq, Repr

/-- Matcher for the timestamp group: four digits, dash, two digits, dash,
two digits, space, two digits, colon, two digits, colon, two digits,
comma, three digits.  Every piece has a fixed width, so the parse is
deterministic. -/
def matchTimestamp (cs : List Char) : Option (RawTs × List Char) :=
  match chompDigitsExact 4 cs with
  | none => none
  | some (yd, cs1) =>
    match chompLit ['-'] cs1 with
    | none => none
    | some cs2 =>
      match chompDigitsExact 2 cs2 with
      | none => none
      | some (mod, cs3) =>
        match chompLit ['-'] cs3 with
        | none => none
        | some cs4 =>
          match chompDigitsExact 2 cs4 with
          | none => none
          | some (dd, cs5) =>
            match chompLit [' '] cs5 with
            | none => none
            | some cs6 =>
              match chompDigitsExact 2 cs6 with
              | none => none
              | some (hd, cs7) =>
                match chompLit [':'] cs7 with
                | none => none
                | some cs8 =>
                  match chompDigitsExact 2 cs8 with
                  | none => none
                  | some (mid, cs9) =>
                    match chompLit [':'] cs9 with
                    | none => none
                    | some cs10 =>
                      match chompDigitsExact 2 cs10 with
                      | none => none
                      | some (sd, cs11) =>
                        match chompLit [','] cs11 with
                        | none => none
                        | some cs12 =>
                          match chompDigitsExact 3 cs12 with
                          | none => none
                          | some (msd, cs13) =>
                            some (⟨digitsToNat yd, digitsToNat mod, digitsToNat dd,
                                   digitsToNat hd, digitsToNat mid, digitsToNat sd,
                                   digitsToNat msd⟩, cs13)

/-- Literal between the timestamp and the free-text satellite name, the
text " - INFO - CoT for " of the pattern. -/
def infoLit : List Char :=
  [' ', '-', ' ', 'I', 'N', 'F', 'O', ' ', '-', ' ', 'C', 'o', 'T', ' ',
   'f', 'o', 'r', ' ']

/-- Literal introducing the latitude group, the text ": lat=". -/
def latLit : List Char := [':', ' ', 'l', 'a', 't', '=']

/-- Literal between the latitude and longitude groups, the text ", lon=". -/
def lonLit : List Char := [',', ' ', 'l', 'o', 'n', '=']

/-- Literal between the longitude and altitude groups, the text ", alt=". -/
def altLit : List Char := [',', ' ', 'a', 'l', 't', '=']

/-- Captured groups of one successful match of the position pattern. -/
structure CotGroups where
  ts : RawTs
  lat : RawDec
  lon : RawDec
  alt : RawDec
  deriving DecidableEq, Repr

/-- Matcher for the part of the pattern after `.*`, that is
`: lat=(-?\d+\.\d+), lon=(-?\d+\.\d+), alt=(\d+\.\d+)`, anchored at the
start of the input; input remaining after the final digit run is ignored,
exactly as an unanchored Python pattern ignores it. -/
def matchTail (cs : List Char) : Option (RawDec × RawDec × RawDec) :=
  match chompLit latLit cs with
  | none => none
  | some cs1 =>
    match chompSignedDec cs1 with
    | none => none
    | some (d1, cs2) =>
      match chompLit lonLit cs2 with
      | none => none
      | some cs3 =>
        match chompSignedDec cs3 with
        | none => none
        | some (d2, cs4) =>
          match chompLit altLit cs4 with
          | none => none
          | some cs5 =>
            match chompUnsignedDec cs5 with
            | none => none
            | some (d3, _) => some (d1, d2, d3)

/-- Matcher for `.*` followed by `matchTail`, with the greedy backtracking
order of the Python engine: the longest extent of `.*` that lets the tail
match wins, so the tail is tried at the latest positions first. -/
def dotStarTail : List Char → Option (RawDec × RawDec × RawDec)
  | [] => matchTail []
  | c :: cs =>
    match dotStarTail cs with
    | some g => some g
    | none => matchTail (c :: cs)

/-- Matcher for the whole position pattern anchored at the start of the
input (Python `re.match` at one position). -/
def matchAt (cs : List Char) : Option CotGroups :=
  match matchTimestamp cs with
  | none => none
  | some (rts, cs1) =>
    match chompLit infoLit cs1 with
    | none => none
    | some cs2 =>
      match dotStarTail cs2 with
      | none => none
      | some (d1, d2, d3) => some ⟨rts, d1, d2, d3⟩

/-- Model of `cot_regex.search(line)`: try the anchored pattern at every
starting position from left to right and return the first success. -/
def cotSearch : List Char → Option CotGroups
  | [] => matchAt []
  | c :: cs =>
    match matchAt (c :: cs) with
    | some g => some g
    | none => cotSearch cs

/-- Calendar date-time with millisecond precision, the model of a Python
`datetime` produced by `dateutil.parser.parse` on a matched timestamp. -/
structure Timestamp where
  year : Nat
  month : Nat
  day : Nat
  hour : Nat
  minute : Nat
  second : Nat
  millis : Nat
  deriving DecidableEq, Repr

/-- Lexicographic comparison of two timestamps, the model of Python
`datetime` comparison (field by field, most significant first,
microseconds included). -/
def Timestamp.le (a b : Timestamp) : Bool :=
  if a.year ≠ b.year then decide (a.year < b.year)
  else if a.month ≠ b.month then decide (a.month < b.month)
  else if a.day ≠ b.day then decide (a.day < b.day)
  else if a.hour ≠ b.hour then decide (a.hour < b.hour)
  else if a.minute ≠ b.minute then decide (a.minute < b.minute)
  else if a.second ≠ b.second then decide (a.second < b.second)
  else decide (a.millis ≤ b.millis)

/-- Gregorian leap-year rule, as implemented by the Python `datetime`
module. -/
def isLeap (y : Nat) : Bool :=
  (y % 4 == 0 && y % 100 != 0) || y % 400 == 0

/-- Length in days of month `m` of year `y` (month 0 is a padding value
used only to start the recursion of `daysBeforeMonth`). -/
def daysInMonth (y : Nat) (m : Nat) : Nat :=
  match m with
  | 0 => 0
  | 2 => if isLeap y then 29 else 28
  | 4 => 30
  | 6 => 30
  | 9 => 30
  | 11 => 30
  | _ => 31

/-- Length in days of year `y`. -/
def daysInYear (y : Nat) : Nat :=
  if isLeap y then 366 else 365

/-- Days of year `y` spent in the full months strictly before month `m`. -/
def daysBeforeMonth (y : Nat) : Nat → Nat
  | 0 => 0
  | m + 1 => daysBeforeMonth y m + daysInMonth y m

/-- Days spent in the full years strictly before year `y`, counted from an
arbitrary fixed origin; only differences of this function matter. -/
def daysBeforeYear : Nat → Nat
  | 0 => 0
  | y + 1 => daysBeforeYear y + daysInYear y

/-- Absolute time of a timestamp in milliseconds from a fixed origin;
linearizes the calendar so that durations between timestamps become
subtraction. -/
def Timestamp.toMillis (t : Timestamp) : Nat :=
  (daysBeforeYear t.year + daysBeforeMonth t.year t.month + (t.day - 1)) * 86400000
    + t.hour * 3600000 + t.minute * 60000 + t.second * 1000 + t.millis

/-- Validity of a timestamp as a calendar date-time, mirroring the checks
the Python `datetime` constructor performs. -/
def Timestamp.valid (t : Timestamp) : Prop :=
  1 ≤ t.year ∧ 1 ≤ t.month ∧ t.month ≤ 12 ∧ 1 ≤ t.day ∧
    t.day ≤ daysInMonth t.year t.month ∧ t.hour ≤ 23 ∧ t.minute ≤ 59 ∧
    t.second ≤ 59 ∧ t.millis ≤ 999

instance (t : Timestamp) : Decidable t.valid := by
  unfold Timestamp.valid; infer_instance

/-- Model of `timestamp + datetime.timedelta(minutes=5)`: add five minutes
with full rollover of hour, day, month and year, exactly as Python
`datetime` addition behaves on valid values. -/
def add5Min (t : Timestamp) : Timestamp :=
  if t.minute + 5 < 60 then
    { t with minute := t.minute + 5 }
  else if t.hour + 1 < 24 then
    { t with hour := t.hour + 1, minute := t.minute + 5 - 60 }
  else if t.day + 1 ≤ daysInMonth t.year t.month then
    { t with day := t.day + 1, hour := 0, minute := t.minute + 5 - 60 }
  else if t.month + 1 ≤ 12 then
    { t with month := t.month + 1, day := 1, hour := 0, minute := t.minute + 5 - 60 }
  else
    { t with year := t.year + 1, month := 1, day := 1, hour := 0,
             minute := t.minute + 5 - 60 }

/-- Model of `dateutil.parser.parse` on a captured timestamp group: the
shape is fixed by the regular expression, so only the calendar validation
can fail.  `none` models the `ValueError` that `dateutil` raises for an
invalid month, day, hour, minute or second. -/
def parseTimestamp (r : RawTs) : Option Timestamp :=
  if 1 ≤ r.y ∧ 1 ≤ r.mo ∧ r.mo ≤ 12 ∧ 1 ≤ r.d ∧ r.d ≤ daysInMonth r.y r.mo ∧
      r.h ≤ 23 ∧ r.mi ≤ 59 ∧ r.s ≤ 59 then
    some ⟨r.y, r.mo, r.d, r.h, r.mi, r.s, r.ms⟩
  else
    none

/-- Exact rational value denoted by a captured decimal field.  Python
converts the captured text with `float()`; we keep the exact decimal value
(IEEE-754 rounding is not modelled and no claim depends on it). -/
def ratOfDec (d : RawDec) : ℚ :=
  let mag : ℚ := (digitsToNat d.ip : ℚ) + (digitsToNat d.fp : ℚ) / ((10 : ℚ) ^ d.fp.length)
  if d.neg then -mag else mag

/-- Position record produced by the scanner: the tuple
`(timestamp, lat, lon, alt)` appended at replay_cot.py line 58.  Note that
the record carries no stale time; staleness is computed later by the
sender. -/
structure Record where
  ts : Timestamp
  lat : ℚ
  lon : ℚ
  alt : ℚ
  deriving DecidableEq, Repr

/-- State of the log file as the scanner finds it: present with the given
lines, absent (the `FileNotFoundError` branch), or failing with some other
I/O error at `open` (the generic `except Exception` branch). -/
inductive LogInput where
  | missing : LogInput
  | ioError : LogInput
  | content : List (List Char) → LogInput

/-- Property (as a Bool) that a line makes the scan abort: its regular
expression match succeeds but `dateutil` rejects the captured timestamp,
so `parse_date` raises inside the `try` block. -/
def abortsLine (line : List Char) : Bool :=
  match cotSearch line with
  | some g => (parseTimestamp g.ts).isNone
  | none => false

/-- Body of the scanner loop at replay_cot.py lines 52-58: walk the lines,
match each with the regular expression, parse the timestamp, filter by the
inclusive window, and collect the records in file order.  `none` models an
exception escaping the loop to the generic handler, which discards every
record collected so far. -/
def scanGo (s e : Timestamp) : List (List Char) → Option (List Record)
  | [] => some []
  | line :: rest =>
    match cotSearch line with
    | none => scanGo s e rest
    | some g =>
      match parseTimestamp g.ts with
      | none => none
      | some t =>
        if Timestamp.le s t && Timestamp.le t e then
          (scanGo s e rest).map
            (fun tl => (⟨t, ratOfDec g.lat, ratOfDec g.lon, ratOfDec g.alt⟩ : Record) :: tl)
        else scanGo s e rest

/-- Model of `parse_log_for_positions(start_time, end_time)` at
replay_cot.py lines 40-68: a missing file, an I/O error, or any exception
during the scan all yield the empty list; otherwise the collected records
are returned in file order.  The function never raises. -/
def parse_log_for_positions : LogInput → Timestamp → Timestamp → List Record
  | .missing, _, _ => []
  | .ioError, _, _ => []
  | .content lines, s, e => (scanGo s e lines).getD []

/-- Per-line record function used to state what the scanner yields for one
line in isolation: the match, the timestamp parse, and the window filter,
without the whole-scan abort behaviour. -/
def specRecord (s e : Timestamp) (line : List Char) : Option Record :=
  match cotSearch line with
  | none => none
  | some g =>
    match parseTimestamp g.ts with
    | none => none
    | some t =>
      if Timestamp.le s t && Timestamp.le t e then
        some ⟨t, ratOfDec g.lat, ratOfDec g.lon, ratOfDec g.alt⟩
      else none

/-- NORAD catalog number hard-coded at replay_cot.py line 36. -/
def SAT_ID : Nat := 6073

/-- Satellite display name hard-coded at replay_cot.py line 37. -/
def SAT_NAME : String := "COSMOS 482 DESCENT CRAFT"

/-- Delay between successful sends, replay_cot.py line 38. -/
def REFRESH_INTERVAL : Nat := 10

/-- CoT event as constructed at replay_cot.py lines 83-101, with the point
sub-object flattened into the lat, lon, hae, ce, le fields and the detail
block reduced to its callsign. -/
structure CotEvent where
  version : String
  type : String
  access : String
  uid : String
  time : Timestamp
  start : Timestamp
  stale : Timestamp
  how : String
  qos : String
  lat : ℚ
  lon : ℚ
  hae : ℚ
  ce : ℚ
  le : ℚ
  callsign : String
  deriving Repr

/-- Construction of the CoT event inside `send_cot_to_tak` (replay_cot.py
lines 82-101): the stale time is computed here, at send time, as the
record timestamp plus five minutes. -/
def buildCotEvent (lat lon alt : ℚ) (timestamp : Timestamp) : CotEvent :=
  { version := "2.0"
    type := "a-n-G-U-U-S-R-S"
    access := "Undefined"
    uid := "SAT." ++ toString SAT_ID
    time := timestamp
    start := timestamp
    stale := add5Min timestamp
    how := "m-g"
    qos := "2-i-c"
    lat := lat
    lon := lon
    hae := alt
    ce := 9999999
    le := 9999999
    callsign := SAT_NAME }

/-- Python exception classes that the handlers of `send_cot_to_tak`
distinguish: `ConnectionRefusedError`, `ssl.SSLError`, `socket.timeout`,
and every other `Exception`. -/
inductive PyExc where
  | connectionRefused : PyExc
  | sslError : PyExc
  | socketTimeout : PyExc
  | otherError : PyExc
  deriving DecidableEq, Repr

/-- Outcome of the single `recv` call: data received, a read timeout, or
an exception raised by the read. -/
inductive RecvOutcome where
  | data : String → RecvOutcome
  | timeout : RecvOutcome
  | raised : PyExc → RecvOutcome
  deriving DecidableEq, Repr

/-- Exception oracle for one call of `send_cot_to_tak`: for each external
call of the function, whether it raises and which exception.  `none` means
the call succeeds. -/
structure SendEnv where
  createExc : Option PyExc
  wrapExc : Option PyExc
  connectExc : Option PyExc
  sendallExc : Option PyExc
  recv : RecvOutcome
  deriving DecidableEq, Repr

/-- Outcome classification used by the two handlers at replay_cot.py lines
123-132: `sslConn` for the `(ConnectionRefusedError, ssl.SSLError)`
handler, `unexpected` for the generic `Exception` handler. -/
inductive ErrClass where
  | sslConn : ErrClass
  | unexpected : ErrClass
  deriving DecidableEq, Repr

/-- Dispatch of a raised exception to the matching `except` clause of
`send_cot_to_tak`: `ConnectionRefusedError` and `ssl.SSLError` land in the
SSL/connection handler, everything else (including a `socket.timeout`
raised outside the guarded `recv`) in the generic handler. -/
def classifyExc : PyExc → ErrClass
  | .connectionRefused => .sslConn
  | .sslError => .sslConn
  | .socketTimeout => .unexpected
  | .otherError => .unexpected

/-- Observable result of one call of `send_cot_to_tak`: the returned
Bool, which handler (if any) ran, whether the TCP/TLS connection was
established, whether the socket was closed before returning, the CoT
event constructed (if control reached the construction), and whether the
No-response branch was logged. -/
structure SendRun where
  result : Bool
  errClass : Option ErrClass
  connected : Bool
  closed : Bool
  event : Option CotEvent
  noResponse : Bool

/-- Model of `send_cot_to_tak(lat, lon, alt, timestamp)` at replay_cot.py
lines 70-132 as a straight-line interpreter of the exception oracle.  The
`wrapped_sock.close()` call appears only at line 120, on the path where no
exception was raised; both `except` handlers return False without closing
the socket.  The inner `try` around `recv` catches only `socket.timeout`;
any other exception raised by `recv` escapes to the outer handlers. -/
def runSend (env : SendEnv) (lat lon alt : ℚ) (timestamp : Timestamp) : SendRun :=
  match env.createExc with
  | some e =>
    { result := false, errClass := some (classifyExc e), connected := false,
      closed := false, event := none, noResponse := false }
  | none =>
  match env.wrapExc with
  | some e =>
    { result := false, errClass := some (classifyExc e), connected := false,
      closed := false, event := none, noResponse := false }
  | none =>
  match env.connectExc with
  | some e =>
    { result := false, errClass := some (classifyExc e), connected := false,
      closed := false, event := none, noResponse := false }
  | none =>
    let ev := buildCotEvent lat lon alt timestamp
    match env.sendallExc with
    | some e =>
      { result := false, errClass := some (classifyExc e), connected := true,
        closed := false, event := some ev, noResponse := false }
    | none =>
      match env.recv with
      | .data _ =>
        { result := true, errClass := none, connected := true,
          closed := true, event := some ev, noResponse := false }
      | .timeout =>
        { result := true, errClass := none, connected := true,
          closed := true, event := some ev, noResponse := true }
      | .raised e =>
        match e with
        | .socketTimeout =>
          { result := true, errClass := none, connected := true,
            closed := true, event := some ev, noResponse := true }
        | _ =>
          { result := false, errClass := some (classifyExc e), connected := true,
            closed := false, event := some ev, noResponse := false }

/-- First exception that the control flow of `send_cot_to_tak` encounters
under the oracle `env`, with a `socket.timeout` raised by `recv` excluded
because the inner handler absorbs it. -/
def firstExc (env : SendEnv) : Option PyExc :=
  match env.createExc with
  | some e => some e
  | none =>
  match env.wrapExc with
  | some e => some e
  | none =>
  match env.connectExc with
  | some e => some e
  | none =>
  match env.sendallExc with
  | some e => some e
  | none =>
  match env.recv with
  | .raised e => if e = .socketTimeout then none else some e
  | _ => none

/-- Action trace element of the replay driver: one send attempt with its
outcome, or one sleep of the given number of seconds. -/
inductive ReplayAction where
  | send : Record → Bool → ReplayAction
  | sleep : Nat → ReplayAction
  deriving DecidableEq, Repr

/-- Result of one send attempt for a record under a given oracle. -/
def sendOk (env : SendEnv) (r : Record) : Bool :=
  (runSend env r.lat r.lon r.alt r.ts).result

/-- Model of the replay loop of `main` (replay_cot.py lines 159-164): for
each record in scanner order call the sender; after a successful send
sleep `REFRESH_INTERVAL` seconds; after a failed send log and continue
immediately.  `envAt i` is the exception oracle governing the i-th send. -/
def replayLoop (envAt : Nat → SendEnv) : Nat → List Record → List ReplayAction
  | _, [] => []
  | i, r :: rest =>
    if sendOk (envAt i) r then
      ReplayAction.send r true :: ReplayAction.sleep REFRESH_INTERVAL ::
        replayLoop envAt (i + 1) rest
    else
      ReplayAction.send r false :: replayLoop envAt (i + 1) rest

/-- Head of the list, if any, is not an ASCII digit.  This is the side
condition under which a greedy digit run stops exactly at a given point. -/
def headNotDigit : List Char → Prop
  | [] => True
  | c :: _ => c.isDigit = false

/-- Shape of a signed decimal group `-?\d+\.\d+`: an optional minus sign,
a nonempty digit run, a dot, a nonempty digit run. -/
def SignedDecStr (l : List Char) : Prop :=
  ∃ sign ip fp : List Char,
    l = sign ++ ip ++ '.' :: fp ∧ (sign = [] ∨ sign = ['-']) ∧
      ip ≠ [] ∧ digitsOnly ip ∧ fp ≠ [] ∧ digitsOnly fp

/-- Shape of an unsigned decimal group `\d+\.\d+`. -/
def UnsignedDecStr (l : List Char) : Prop :=
  ∃ ip fp : List Char,
    l = ip ++ '.' :: fp ∧ ip ≠ [] ∧ digitsOnly ip ∧ fp ≠ [] ∧ digitsOnly fp

/-- Shape of the timestamp group: four digits, dash, two digits, dash, two
digits, space, two digits, colon, two digits, colon, two digits, comma,
three digits. -/
def TsShape (l : List Char) : Prop :=
  ∃ yd mod dd hd mid sd msd : List Char,
    l = yd ++ '-' :: (mod ++ '-' :: (dd ++ ' ' :: (hd ++ ':' ::
          (mid ++ ':' :: (sd ++ ',' :: msd))))) ∧
      yd.length = 4 ∧ digitsOnly yd ∧ mod.length = 2 ∧ digitsOnly mod ∧
      dd.length = 2 ∧ digitsOnly dd ∧ hd.length = 2 ∧ digitsOnly hd ∧
      mid.length = 2 ∧ digitsOnly mid ∧ sd.length = 2 ∧ digitsOnly sd ∧
      msd.length = 3 ∧ digitsOnly msd

/-- Conformance of a character segment to the whole position pattern, from
its first to its last character: timestamp, the INFO literal, arbitrary
filler (the `.*` part; lines are newline-free so no extra side condition
is needed), and the three decimal groups with their literals.  The segment
ends exactly at the last altitude digit, where the pattern ends. -/
def PatternSeg (seg : List Char) : Prop :=
  ∃ tsStr mid s1 s2 s3 : List Char,
    seg = tsStr ++ infoLit ++ mid ++ latLit ++ s1 ++ lonLit ++ s2 ++
        altLit ++ s3 ∧
      TsShape tsStr ∧ SignedDecStr s1 ∧ SignedDecStr s2 ∧ UnsignedDecStr s3

/-- Property that some contiguous segment of the line conforms to the
position pattern.  This is what Python `re.search` tests. -/
def ContainsPattern (line : List Char) : Prop :=
  ∃ pre seg post : List Char, line = pre ++ seg ++ post ∧ PatternSeg seg

/-- Modelled from the spec: the parsing rule of specification section 4.1
says a line is a match only if the line, as a whole, conforms exactly to
the pattern; this predicate states that whole-line conformance. -/
def ExactPattern (line : List Char) : Prop := PatternSeg line

/-- Projection of a replay action to the record it sent, if any. -/
def sentRecord : ReplayAction → Option Record
  | .send r _ => some r
  | .sleep _ => none

/-- Example timestamp used by concrete evaluations: 2025-05-01 10:00:00. -/
def exTs : Timestamp := ⟨2025, 5, 1, 10, 0, 0, 0⟩

/-- Start of the example replay window: 2025-05-01 09:00:00. -/
def winStart : Timestamp := ⟨2025, 5, 1, 9, 0, 0, 0⟩

/-- End of the example replay window: 2025-05-01 11:00:00. -/
def winEnd : Timestamp := ⟨2025, 5, 1, 11, 0, 0, 0⟩

/-- Well-formed log line whose timestamp lies inside the example window. -/
def c4GoodLine : List Char :=
  ("2025-05-01 10:00:00,000 - INFO - CoT for COSMOS 482 DESCENT CRAFT: lat=12.34, lon=56.78, alt=100.0").data

/-- Log line that matches the regular expression but carries month 13, so
Python `dateutil` raises `ValueError` on its timestamp. -/
def c4PoisonLine : List Char :=
  ("2025-13-01 10:00:00,000 - INFO - CoT for X: lat=1.0, lon=2.0, alt=3.0").data

/-- Record the scanner produces for `c4GoodLine` inside the example
window. -/
def c4GoodRec : Record :=
  ⟨⟨2025, 5, 1, 10, 0, 0, 0⟩,
   ratOfDec ⟨false, ['1', '2'], ['3', '4']⟩,
   ratOfDec ⟨false, ['5', '6'], ['7', '8']⟩,
   ratOfDec ⟨false, ['1', '0', '0'], ['0']⟩⟩

/-- Tail of a line whose core conforms to the pattern. -/
def exC2Rest : List Char :=
  ("2025-05-01 10:00:00,000 - INFO - CoT for S: lat=1.0, lon=2.0, alt=3.0").data

/-- Line consisting of a junk character followed by a conforming core: the
whole line does not conform to the pattern, yet `re.search` matches. -/
def exC2Line : List Char := 'X' :: exC2Rest

/-- Log line stamped half a second into the 10:00:00 second. -/
def c9Line : List Char :=
  ("2025-05-01 10:00:00,500 - INFO - CoT for X: lat=1.0, lon=2.0, alt=3.0").data

/-- Window end with second resolution only: 2025-05-01 10:00:00,000. -/
def c9EndSec : Timestamp := ⟨2025, 5, 1, 10, 0, 0, 0⟩

/-- Window end including the milliseconds: 2025-05-01 10:00:00,500. -/
def c9EndMs : Timestamp := ⟨2025, 5, 1, 10, 0, 0, 500⟩

/-- Record the scanner produces for `c9Line`, millisecond retained. -/
def c9Rec : Record :=
  ⟨⟨2025, 5, 1, 10, 0, 0, 500⟩,
   ratOfDec ⟨false, ['1'], ['0']⟩,
   ratOfDec ⟨false, ['2'], ['0']⟩,
   ratOfDec ⟨false, ['3'], ['0']⟩⟩

/-- Line with an integer altitude (no decimal point). -/
def c10IntAlt : List Char :=
  ("2025-05-01 10:00:00,000 - INFO - CoT for X: lat=12.34, lon=56.78, alt=100").data

/-- Line with a plus-signed latitude. -/
def c10PlusLat : List Char :=
  ("2025-05-01 10:00:00,000 - INFO - CoT for X: lat=+12.34, lon=56.78, alt=100.0").data

/-- Line with a negative altitude. -/
def c10NegAlt : List Char :=
  ("2025-05-01 10:00:00,000 - INFO - CoT for X: lat=12.34, lon=56.78, alt=-100.0").data

/-- Control line with a negative latitude, which the pattern accepts. -/
def c10NegLat : List Char :=
  ("2025-05-01 10:00:00,000 - INFO - CoT for X: lat=-12.34, lon=56.78, alt=100.0").data

/-- Oracle of a send where the connection is established and `sendall`
then raises a generic exception. -/
def envSendFail : SendEnv := ⟨none, none, none, some .otherError, .timeout⟩

/-- Oracle of a send where everything succeeds until `recv` raises a
non-timeout exception (for example a connection reset while reading). -/
def envRecvRaise : SendEnv := ⟨none, none, none, none, .raised .otherError⟩

/-- Oracle of a fully successful send whose response read times out. -/
def envAllOk : SendEnv := ⟨none, none, none, none, .timeout⟩

/-- Soundness of the literal matcher: success decomposes the input. -/
theorem chompLit_sound :
    ∀ (lit cs rest : List Char), chompLit lit cs = some rest → cs = lit ++ rest := by
  intro lit
  induction lit with
  | nil => intro cs rest h; simpa [chompLit] using h
  | cons l ls ih =>
    intro cs rest h
    cases cs with
    | nil => simp [chompLit] at h
    | cons c t =>
      by_cases hc : c = l
      · subst hc
        simp only [chompLit, if_pos rfl] at h
        simpa using ih t rest h
      · simp [chompLit, hc] at h

/-- Completeness of the literal matcher on an input that starts with the
literal. -/
theorem chompLit_complete :
    ∀ (lit rest : List Char), chompLit lit (lit ++ rest) = some rest := by
  intro lit
  induction lit with
  | nil => intro rest; rfl
  | cons l ls ih => intro rest; simp [chompLit, ih]

/-- Soundness of the fixed-width digit matcher. -/
theorem chompDigitsExact_sound :
    ∀ (n : Nat) (cs ds rest : List Char),
      chompDigitsExact n cs = some (ds, rest) →
        cs = ds ++ rest ∧ ds.length = n ∧ digitsOnly ds := by
  intro n
  induction n with
  | zero =>
    intro cs ds rest h
    simp only [chompDigitsExact, Option.some.injEq, Prod.mk.injEq] at h
    obtain ⟨h1, h2⟩ := h
    subst h1; subst h2
    exact ⟨rfl, rfl, by intro c hc; simp at hc⟩
  | succ n ih =>
    intro cs ds rest h
    cases cs with
    | nil => simp [chompDigitsExact] at h
    | cons c t =>
      by_cases hc : c.isDigit
      · simp only [chompDigitsExact, if_pos hc] at h
        cases hrec : chompDigitsExact n t with
        | none => rw [hrec] at h; simp at h
        | some p =>
          rw [hrec] at h
          obtain ⟨ds0, rest0⟩ := p
          simp only [Option.some.injEq, Prod.mk.injEq] at h
          obtain ⟨h1, h2⟩ := h
          obtain ⟨ht, hlen, hdig⟩ := ih t ds0 rest0 hrec
          subst h2
          constructor
          · rw [← h1]; simp [ht]
          constructor
          · rw [← h1]; simp [hlen]
          · intro x hx
            rw [← h1] at hx
            rcases List.mem_cons.mp hx with h | h
            · subst h; exact hc
            · exact hdig x h
      · simp [chompDigitsExact, hc] at h

/-- Completeness of the fixed-width digit matcher. -/
theorem chompDigitsExact_complete :
    ∀ (ds rest : List Char), digitsOnly ds →
      chompDigitsExact ds.length (ds ++ rest) = some (ds, rest) := by
  intro ds
  induction ds with
  | nil => intro rest _; rfl
  | cons c t ih =>
    intro rest hdig
    have hc : c.isDigit = true := hdig c (List.mem_cons_self c t)
    have ht : digitsOnly t := fun x hx => hdig x (List.mem_cons_of_mem c hx)
    simp [chompDigitsExact, hc, ih rest ht]

/-- Soundness of the greedy digit-run matcher. -/
theorem chompDigits1_sound :
    ∀ (cs run rest : List Char),
      chompDigits1 cs = some (run, rest) →
        cs = run ++ rest ∧ run ≠ [] ∧ digitsOnly run := by
  intro cs
  induction cs with
  | nil => intro run rest h; simp [chompDigits1] at h
  | cons c t ih =>
    intro run rest h
    by_cases hc : c.isDigit
    · simp only [chompDigits1, if_pos hc] at h
      cases hrec : chompDigits1 t with
      | none =>
        rw [hrec] at h
        simp only [Option.some.injEq, Prod.mk.injEq] at h
        obtain ⟨h1, h2⟩ := h
        subst h2
        refine ⟨by simp [← h1], by simp [← h1], ?_⟩
        intro x hx
        rw [← h1] at hx
        rcases List.mem_cons.mp hx with h | h
        · subst h; exact hc
        · simp at h
      | some p =>
        rw [hrec] at h
        obtain ⟨run0, rest0⟩ := p
        simp only [Option.some.injEq, Prod.mk.injEq] at h
        obtain ⟨h1, h2⟩ := h
        obtain ⟨ht, hne, hdig⟩ := ih run0 rest0 hrec
        subst h2
        refine ⟨by simp [← h1, ht], by simp [← h1], ?_⟩
        intro x hx
        rw [← h1] at hx
        rcases List.mem_cons.mp hx with h | h
        · subst h; exact hc
        · exact hdig x h
    · simp [chompDigits1, hc] at h

/-- Completeness of the greedy digit-run matcher when the run is followed
by a non-digit (or by nothing): the matcher stops exactly at the boundary. -/
theorem chompDigits1_complete :
    ∀ (run rest : List Char), run ≠ [] → digitsOnly run → headNotDigit rest →
      chompDigits1 (run ++ rest) = some (run, rest) := by
  intro run
  induction run with
  | nil => intro rest h; exact absurd rfl h
  | cons c t ih =>
    intro rest _ hdig hrest
    have hc : c.isDigit = true := hdig c (List.mem_cons_self c t)
    have ht : digitsOnly t := fun x hx => hdig x (List.mem_cons_of_mem c hx)
    cases t with
    | nil =>
      cases rest with
      | nil => simp [chompDigits1, hc]
      | cons r rs =>
        have hr : r.isDigit = false := hrest
        simp [chompDigits1, hc, hr]
    | cons c2 t2 =>
      have hrec := ih rest (by simp) ht hrest
      simp only [List.cons_append] at hrec ⊢
      rw [chompDigits1, if_pos hc, hrec]

/-- Success of the greedy digit-run matcher on any input starting with a
digit. -/
theorem chompDigits1_isSome :
    ∀ (c : Char) (cs : List Char), c.isDigit = true →
      (chompDigits1 (c :: cs)).isSome = true := by
  intro c cs hc
  simp only [chompDigits1, if_pos hc]
  cases chompDigits1 cs with
  | none => rfl
  | some p => rfl

/-- Soundness of `chompDec`: success decomposes the input into the two
digit runs around the dot, followed by the rest. -/
theorem chompDec_sound :
    ∀ (neg : Bool) (cs : List Char) (d : RawDec) (rest : List Char),
      chompDec neg cs = some (d, rest) →
        d.neg = neg ∧ cs = d.ip ++ '.' :: (d.fp ++ rest) ∧
          d.ip ≠ [] ∧ digitsOnly d.ip ∧ d.fp ≠ [] ∧ digitsOnly d.fp := by
  intro neg cs d rest h
  unfold chompDec at h
  cases h1 : chompDigits1 cs with
  | none => rw [h1] at h; simp at h
  | some p1 =>
    rw [h1] at h
    obtain ⟨ipRun, cs2⟩ := p1
    obtain ⟨hcs, hipne, hipdig⟩ := chompDigits1_sound cs ipRun cs2 h1
    simp only at h
    split at h
    · rename_i cs3
      cases h2 : chompDigits1 cs3 with
      | none => rw [h2] at h; simp at h
      | some p2 =>
        rw [h2] at h
        obtain ⟨fpRun, cs4⟩ := p2
        obtain ⟨ht2, hfpne, hfpdig⟩ := chompDigits1_sound cs3 fpRun cs4 h2
        simp only [Option.some.injEq, Prod.mk.injEq] at h
        obtain ⟨h3, h4⟩ := h
        subst h4
        rw [← h3]
        refine ⟨rfl, ?_, hipne, hipdig, hfpne, hfpdig⟩
        rw [hcs, ht2]
    · simp at h

/-- Completeness of `chompDec` when the decimal is followed by a non-digit
boundary: the matcher consumes exactly the decimal text. -/
theorem chompDec_complete :
    ∀ (neg : Bool) (ip fp rest : List Char), ip ≠ [] → digitsOnly ip →
      fp ≠ [] → digitsOnly fp → headNotDigit rest →
      chompDec neg (ip ++ '.' :: (fp ++ rest)) = some (⟨neg, ip, fp⟩, rest) := by
  intro neg ip fp rest hipne hipdig hfpne hfpdig hrest
  have h1 : chompDigits1 (ip ++ '.' :: (fp ++ rest)) = some (ip, '.' :: (fp ++ rest)) :=
    chompDigits1_complete ip ('.' :: (fp ++ rest)) hipne hipdig (by simp [headNotDigit])
  have h2 : chompDigits1 (fp ++ rest) = some (fp, rest) :=
    chompDigits1_complete fp rest hfpne hfpdig hrest
  unfold chompDec
  rw [h1]
  simp only
  rw [h2]

/-- Success of `chompDec` on any input beginning with a well-shaped
decimal, whatever follows it (the altitude group is followed by the end of
the pattern, so the engine accepts any remainder there). -/
theorem chompDec_isSome :
    ∀ (neg : Bool) (ip fp rest : List Char), ip ≠ [] → digitsOnly ip →
      fp ≠ [] → digitsOnly fp →
      (chompDec neg (ip ++ '.' :: (fp ++ rest))).isSome = true := by
  intro neg ip fp rest hipne hipdig hfpne hfpdig
  have h1 : chompDigits1 (ip ++ '.' :: (fp ++ rest)) = some (ip, '.' :: (fp ++ rest)) :=
    chompDigits1_complete ip ('.' :: (fp ++ rest)) hipne hipdig (by simp [headNotDigit])
  unfold chompDec
  rw [h1]
  simp only
  cases fp with
  | nil => exact absurd rfl hfpne
  | cons c fpt =>
    have hc : c.isDigit = true := hfpdig c (List.mem_cons_self c fpt)
    have hsome := chompDigits1_isSome c (fpt ++ rest) hc
    rw [Option.isSome_iff_exists] at hsome
    obtain ⟨p, hp⟩ := hsome
    rw [List.cons_append, hp]
    obtain ⟨a, b⟩ := p
    rfl

/-- Soundness of the signed-decimal matcher: success decomposes the input
into the captured text followed by the rest, with the well-formedness of
the capture. -/
theorem chompSignedDec_sound :
    ∀ (cs : List Char) (d : RawDec) (rest : List Char),
      chompSignedDec cs = some (d, rest) →
        cs = decString d ++ rest ∧ d.ip ≠ [] ∧ digitsOnly d.ip ∧
          d.fp ≠ [] ∧ digitsOnly d.fp := by
  intro cs d rest h
  cases cs with
  | nil =>
    simp only [chompSignedDec] at h
    obtain ⟨hneg, hdec, h3⟩ := chompDec_sound false [] d rest h
    simp at hdec
  | cons c t =>
    simp only [chompSignedDec] at h
    by_cases hc : c = '-'
    · rw [if_pos hc] at h
      obtain ⟨hneg, hdec, hrest⟩ := chompDec_sound true t d rest h
      subst hc
      refine ⟨?_, hrest⟩
      simp [decString, hneg, hdec]
    · rw [if_neg hc] at h
      obtain ⟨hneg, hdec, hrest⟩ := chompDec_sound false (c :: t) d rest h
      refine ⟨?_, hrest⟩
      simp [decString, hneg, hdec]

/-- Completeness of the signed-decimal matcher at a boundary: an input
that starts with a well-shaped signed decimal followed by a non-digit is
consumed exactly up to the boundary. -/
theorem chompSignedDec_complete :
    ∀ (s rest : List Char), SignedDecStr s → headNotDigit rest →
      ∃ d : RawDec, chompSignedDec (s ++ rest) = some (d, rest) := by
  intro s rest hs hrest
  obtain ⟨sign, ip, fp, hdecomp, hsign, hipne, hipdig, hfpne, hfpdig⟩ := hs
  rcases hsign with hsign | hsign
  · subst hsign
    simp only [List.nil_append] at hdecomp
    subst hdecomp
    have hdec := chompDec_complete false ip fp rest hipne hipdig hfpne hfpdig hrest
    cases ip with
    | nil => exact absurd rfl hipne
    | cons c ipt =>
      have hc : c.isDigit = true := hipdig c (List.mem_cons_self c ipt)
      have hcm : ¬ c = '-' := by
        intro he; subst he; simp [Char.isDigit] at hc
      rw [show ((c :: ipt) ++ '.' :: fp) ++ rest = c :: (ipt ++ '.' :: (fp ++ rest)) by simp]
      simp only [chompSignedDec]
      rw [if_neg hcm]
      rw [show c :: (ipt ++ '.' :: (fp ++ rest)) = (c :: ipt) ++ '.' :: (fp ++ rest) from rfl]
      rw [hdec]
      exact ⟨⟨false, c :: ipt, fp⟩, rfl⟩
  · subst hsign
    subst hdecomp
    have hdec := chompDec_complete true ip fp rest hipne hipdig hfpne hfpdig hrest
    rw [show ((['-'] ++ ip) ++ '.' :: fp) ++ rest = '-' :: (ip ++ '.' :: (fp ++ rest)) by simp]
    simp only [chompSignedDec, if_true]
    rw [hdec]
    exact ⟨⟨true, ip, fp⟩, rfl⟩

/-- Soundness of the unsigned-decimal matcher. -/
theorem chompUnsignedDec_sound :
    ∀ (cs : List Char) (d : RawDec) (rest : List Char),
      chompUnsignedDec cs = some (d, rest) →
        d.neg = false ∧ cs = d.ip ++ '.' :: (d.fp ++ rest) ∧
          d.ip ≠ [] ∧ digitsOnly d.ip ∧ d.fp ≠ [] ∧ digitsOnly d.fp :=
  fun cs d rest h => chompDec_sound false cs d rest h

/-- Success of the unsigned-decimal matcher on any input beginning with a
well-shaped unsigned decimal. -/
theorem chompUnsignedDec_isSome :
    ∀ (s rest : List Char), UnsignedDecStr s →
      (chompUnsignedDec (s ++ rest)).isSome = true := by
  intro s rest hs
  obtain ⟨ip, fp, hdecomp, hipne, hipdig, hfpne, hfpdig⟩ := hs
  subst hdecomp
  have := chompDec_isSome false ip fp rest hipne hipdig hfpne hfpdig
  unfold chompUnsignedDec
  rw [show ip ++ '.' :: fp ++ rest = ip ++ '.' :: (fp ++ rest) by simp]
  exact this

/-- A list starting with the lon literal starts with a comma, which is not
a digit. -/
theorem headNotDigit_lonLit (x : List Char) : headNotDigit (lonLit ++ x) := by
  show (',' : Char).isDigit = false
  decide

/-- A list starting with the alt literal starts with a comma, which is not
a digit. -/
theorem headNotDigit_altLit (x : List Char) : headNotDigit (altLit ++ x) := by
  show (',' : Char).isDigit = false
  decide

/-- Text of a well-formed captured decimal conforms to the signed-decimal
shape. -/
theorem signedDecStr_decString :
    ∀ d : RawDec, d.ip ≠ [] → digitsOnly d.ip → d.fp ≠ [] → digitsOnly d.fp →
      SignedDecStr (decString d) := by
  intro d h1 h2 h3 h4
  refine ⟨if d.neg then ['-'] else [], d.ip, d.fp, by simp [decString], ?_, h1, h2, h3, h4⟩
  cases d.neg <;> simp

/-- Text of a well-formed captured decimal with a false sign flag conforms
to the unsigned-decimal shape. -/
theorem unsignedDecStr_decString :
    ∀ d : RawDec, d.neg = false → d.ip ≠ [] → digitsOnly d.ip → d.fp ≠ [] →
      digitsOnly d.fp → UnsignedDecStr (decString d) := by
  intro d hneg h1 h2 h3 h4
  exact ⟨d.ip, d.fp, by simp [decString, hneg], h1, h2, h3, h4⟩

/-- Soundness of the tail matcher: success decomposes the input into the
three literals and three well-shaped decimal groups, followed by an
arbitrary ignored remainder. -/
theorem matchTail_sound :
    ∀ (cs : List Char) (d1 d2 d3 : RawDec),
      matchTail cs = some (d1, d2, d3) →
        ∃ rest, cs = latLit ++ (decString d1 ++ (lonLit ++ (decString d2 ++
            (altLit ++ (decString d3 ++ rest))))) ∧
          SignedDecStr (decString d1) ∧ SignedDecStr (decString d2) ∧
          UnsignedDecStr (decString d3) := by
  intro cs d1 d2 d3 h
  unfold matchTail at h
  cases hA : chompLit latLit cs with
  | none => rw [hA] at h; simp at h
  | some cs1 =>
    rw [hA] at h
    simp only at h
    cases hB : chompSignedDec cs1 with
    | none => rw [hB] at h; simp at h
    | some p1 =>
      rw [hB] at h
      obtain ⟨e1, cs2⟩ := p1
      simp only at h
      cases hC : chompLit lonLit cs2 with
      | none => rw [hC] at h; simp at h
      | some cs3 =>
        rw [hC] at h
        simp only at h
        cases hD : chompSignedDec cs3 with
        | none => rw [hD] at h; simp at h
        | some p2 =>
          rw [hD] at h
          obtain ⟨e2, cs4⟩ := p2
          simp only at h
          cases hE : chompLit altLit cs4 with
          | none => rw [hE] at h; simp at h
          | some cs5 =>
            rw [hE] at h
            simp only at h
            cases hF : chompUnsignedDec cs5 with
            | none => rw [hF] at h; simp at h
            | some p3 =>
              rw [hF] at h
              obtain ⟨e3, cs6⟩ := p3
              simp only [Option.some.injEq, Prod.mk.injEq] at h
              obtain ⟨h1, h2, h3⟩ := h
              subst h1; subst h2; subst h3
              obtain ⟨hcs1, hip1, hdg1, hfp1, hfd1⟩ := chompSignedDec_sound cs1 e1 cs2 hB
              obtain ⟨hcs3, hip2, hdg2, hfp2, hfd2⟩ := chompSignedDec_sound cs3 e2 cs4 hD
              obtain ⟨hneg3, hcs5, hip3, hdg3, hfp3, hfd3⟩ :=
                chompUnsignedDec_sound cs5 e3 cs6 hF
              refine ⟨cs6, ?_, signedDecStr_decString e1 hip1 hdg1 hfp1 hfd1,
                signedDecStr_decString e2 hip2 hdg2 hfp2 hfd2,
                unsignedDecStr_decString e3 hneg3 hip3 hdg3 hfp3 hfd3⟩
              have hcsA := chompLit_sound latLit cs cs1 hA
              have hcsC := chompLit_sound lonLit cs2 cs3 hC
              have hcsE := chompLit_sound altLit cs4 cs5 hE
              rw [hcsA, hcs1, hcsC, hcs3, hcsE, hcs5]
              simp [decString, hneg3, List.append_assoc]

/-- Completeness of the tail matcher: it succeeds on the three literals
with three well-shaped decimal groups, whatever follows. -/
theorem matchTail_isSome :
    ∀ (s1 s2 s3 rest : List Char), SignedDecStr s1 → SignedDecStr s2 →
      UnsignedDecStr s3 →
      (matchTail (latLit ++ (s1 ++ (lonLit ++ (s2 ++ (altLit ++ (s3 ++ rest))))))).isSome
        = true := by
  intro s1 s2 s3 rest hs1 hs2 hs3
  obtain ⟨d1, hd1⟩ := chompSignedDec_complete s1
    (lonLit ++ (s2 ++ (altLit ++ (s3 ++ rest)))) hs1 (headNotDigit_lonLit _)
  obtain ⟨d2, hd2⟩ := chompSignedDec_complete s2
    (altLit ++ (s3 ++ rest)) hs2 (headNotDigit_altLit _)
  have hu := chompUnsignedDec_isSome s3 rest hs3
  rw [Option.isSome_iff_exists] at hu
  obtain ⟨p3, hp3⟩ := hu
  unfold matchTail
  rw [chompLit_complete]
  simp only
  rw [hd1]
  simp only
  rw [chompLit_complete]
  simp only
  rw [hd2]
  simp only
  rw [chompLit_complete]
  simp only
  rw [hp3]
  obtain ⟨e3, cs6⟩ := p3
  rfl

/-- Soundness of the greedy filler matcher: success means the tail matched
at some split point. -/
theorem dotStarTail_sound :
    ∀ (cs : List Char) (g : RawDec × RawDec × RawDec), dotStarTail cs = some g →
      ∃ mid suf, cs = mid ++ suf ∧ matchTail suf = some g := by
  intro cs
  induction cs with
  | nil => intro g h; exact ⟨[], [], rfl, h⟩
  | cons c t ih =>
    intro g h
    rw [dotStarTail] at h
    cases hrec : dotStarTail t with
    | some g2 =>
      rw [hrec] at h
      simp only [Option.some.injEq] at h
      subst h
      obtain ⟨mid, suf, hm, hs⟩ := ih g2 hrec
      exact ⟨c :: mid, suf, by rw [hm]; rfl, hs⟩
    | none =>
      rw [hrec] at h
      exact ⟨[], c :: t, rfl, h⟩

/-- Completeness of the greedy filler matcher: if the tail matches at any
split point, the filler matcher succeeds. -/
theorem dotStarTail_isSome :
    ∀ (mid suf : List Char), (matchTail suf).isSome = true →
      (dotStarTail (mid ++ suf)).isSome = true := by
  intro mid
  induction mid with
  | nil =>
    intro suf h
    rw [List.nil_append]
    cases suf with
    | nil => rw [dotStarTail]; exact h
    | cons c t =>
      rw [dotStarTail]
      cases hrec : dotStarTail t with
      | some g => rfl
      | none => exact h
  | cons c midt ih =>
    intro suf h
    have hrec2 := ih suf h
    rw [List.cons_append, dotStarTail]
    cases hrec : dotStarTail (midt ++ suf) with
    | some g => rfl
    | none => rw [hrec] at hrec2; simp at hrec2

/-- Soundness of the timestamp matcher: success decomposes the input into
a segment of the timestamp shape followed by the rest. -/
theorem matchTimestamp_sound :
    ∀ (cs : List Char) (rts : RawTs) (rest : List Char),
      matchTimestamp cs = some (rts, rest) →
        ∃ tsStr, cs = tsStr ++ rest ∧ TsShape tsStr := by
  intro cs rts rest h
  unfold matchTimestamp at h
  cases h1 : chompDigitsExact 4 cs with
  | none => rw [h1] at h; simp at h
  | some p1 =>
    rw [h1] at h
    obtain ⟨yd, cs1⟩ := p1
    simp only at h
    cases h2 : chompLit ['-'] cs1 with
    | none => rw [h2] at h; simp at h
    | some cs2 =>
      rw [h2] at h
      simp only at h
      cases h3 : chompDigitsExact 2 cs2 with
      | none => rw [h3] at h; simp at h
      | some p2 =>
        rw [h3] at h
        obtain ⟨mod, cs3⟩ := p2
        simp only at h
        cases h4 : chompLit ['-'] cs3 with
        | none => rw [h4] at h; simp at h
        | some cs4 =>
          rw [h4] at h
          simp only at h
          cases h5 : chompDigitsExact 2 cs4 with
          | none => rw [h5] at h; simp at h
          | some p3 =>
            rw [h5] at h
            obtain ⟨dd, cs5⟩ := p3
            simp only at h
            cases h6 : chompLit [' '] cs5 with
            | none => rw [h6] at h; simp at h
            | some cs6 =>
              rw [h6] at h
              simp only at h
              cases h7 : chompDigitsExact 2 cs6 with
              | none => rw [h7] at h; simp at h
              | some p4 =>
                rw [h7] at h
                obtain ⟨hd, cs7⟩ := p4
                simp only at h
                cases h8 : chompLit [':'] cs7 with
                | none => rw [h8] at h; simp at h
                | some cs8 =>
                  rw [h8] at h
                  simp only at h
                  cases h9 : chompDigitsExact 2 cs8 with
                  | none => rw [h9] at h; simp at h
                  | some p5 =>
                    rw [h9] at h
                    obtain ⟨mid, cs9⟩ := p5
                    simp only at h
                    cases h10 : chompLit [':'] cs9 with
                    | none => rw [h10] at h; simp at h
                    | some cs10 =>
                      rw [h10] at h
                      simp only at h
                      cases h11 : chompDigitsExact 2 cs10 with
                      | none => rw [h11] at h; simp at h
                      | some p6 =>
                        rw [h11] at h
                        obtain ⟨sd, cs11⟩ := p6
                        simp only at h
                        cases h12 : chompLit [','] cs11 with
                        | none => rw [h12] at h; simp at h
                        | some cs12 =>
                          rw [h12] at h
                          simp only at h
                          cases h13 : chompDigitsExact 3 cs12 with
                          | none => rw [h13] at h; simp at h
                          | some p7 =>
                            rw [h13] at h
                            obtain ⟨msd, cs13⟩ := p7
                            simp only [Option.some.injEq, Prod.mk.injEq] at h
                            obtain ⟨hrts, hrest⟩ := h
                            subst hrest
                            obtain ⟨hc1, hl1, hg1⟩ := chompDigitsExact_sound 4 cs yd cs1 h1
                            have hc2 := chompLit_sound ['-'] cs1 cs2 h2
                            obtain ⟨hc3, hl3, hg3⟩ := chompDigitsExact_sound 2 cs2 mod cs3 h3
                            have hc4 := chompLit_sound ['-'] cs3 cs4 h4
                            obtain ⟨hc5, hl5, hg5⟩ := chompDigitsExact_sound 2 cs4 dd cs5 h5
                            have hc6 := chompLit_sound [' '] cs5 cs6 h6
                            obtain ⟨hc7, hl7, hg7⟩ := chompDigitsExact_sound 2 cs6 hd cs7 h7
                            have hc8 := chompLit_sound [':'] cs7 cs8 h8
                            obtain ⟨hc9, hl9, hg9⟩ := chompDigitsExact_sound 2 cs8 mid cs9 h9
                            have hc10 := chompLit_sound [':'] cs9 cs10 h10
                            obtain ⟨hc11, hl11, hg11⟩ := chompDigitsExact_sound 2 cs10 sd cs11 h11
                            have hc12 := chompLit_sound [','] cs11 cs12 h12
                            obtain ⟨hc13, hl13, hg13⟩ := chompDigitsExact_sound 3 cs12 msd cs13 h13
                            refine ⟨yd ++ '-' :: (mod ++ '-' :: (dd ++ ' ' :: (hd ++ ':' ::
                              (mid ++ ':' :: (sd ++ ',' :: msd))))), ?_,
                              yd, mod, dd, hd, mid, sd, msd, rfl,
                              hl1, hg1, hl3, hg3, hl5, hg5, hl7, hg7, hl9, hg9, hl11, hg11, hl13, hg13⟩
                            rw [hc1, hc2, hc3, hc4, hc5, hc6, hc7, hc8, hc9, hc10, hc11, hc12, hc13]
                            simp

/-- Variant of `chompDigitsExact_complete` taking the length as an
equation, convenient for rewriting. -/
theorem chompDigitsExact_complete2 :
    ∀ (n : Nat) (ds rest : List Char), ds.length = n → digitsOnly ds →
      chompDigitsExact n (ds ++ rest) = some (ds, rest) := by
  intro n ds rest h hd
  subst h
  exact chompDigitsExact_complete ds rest hd

/-- Single-character literal matcher on a matching head. -/
theorem chompLit_single :
    ∀ (c : Char) (rest : List Char), chompLit [c] (c :: rest) = some rest := by
  intro c rest
  simp [chompLit]

/-- Completeness of the timestamp matcher on a segment of the timestamp
shape, whatever follows it. -/
theorem matchTimestamp_complete :
    ∀ (tsStr rest : List Char), TsShape tsStr →
      ∃ rts, matchTimestamp (tsStr ++ rest) = some (rts, rest) := by
  intro tsStr rest hts
  obtain ⟨yd, mod, dd, hd, mid, sd, msd, hdecomp, hl1, hg1, hl3, hg3, hl5, hg5,
    hl7, hg7, hl9, hg9, hl11, hg11, hl13, hg13⟩ := hts
  subst hdecomp
  rw [show (yd ++ '-' :: (mod ++ '-' :: (dd ++ ' ' :: (hd ++ ':' :: (mid ++ ':' ::
      (sd ++ ',' :: msd)))))) ++ rest = yd ++ '-' :: (mod ++ '-' :: (dd ++ ' ' ::
      (hd ++ ':' :: (mid ++ ':' :: (sd ++ ',' :: (msd ++ rest)))))) by simp]
  unfold matchTimestamp
  rw [chompDigitsExact_complete2 4 yd _ hl1 hg1]
  simp only
  rw [chompLit_single]
  simp only
  rw [chompDigitsExact_complete2 2 mod _ hl3 hg3]
  simp only
  rw [chompLit_single]
  simp only
  rw [chompDigitsExact_complete2 2 dd _ hl5 hg5]
  simp only
  rw [chompLit_single]
  simp only
  rw [chompDigitsExact_complete2 2 hd _ hl7 hg7]
  simp only
  rw [chompLit_single]
  simp only
  rw [chompDigitsExact_complete2 2 mid _ hl9 hg9]
  simp only
  rw [chompLit_single]
  simp only
  rw [chompDigitsExact_complete2 2 sd _ hl11 hg11]
  simp only
  rw [chompLit_single]
  simp only
  rw [chompDigitsExact_complete2 3 msd _ hl13 hg13]
  exact ⟨_, rfl⟩

/-- Soundness of the anchored whole-pattern matcher: success decomposes
the input into a conforming segment followed by an ignored remainder. -/
theorem matchAt_sound :
    ∀ (cs : List Char) (g : CotGroups), matchAt cs = some g →
      ∃ seg post, cs = seg ++ post ∧ PatternSeg seg := by
  intro cs g h
  unfold matchAt at h
  cases hA : matchTimestamp cs with
  | none => rw [hA] at h; simp at h
  | some p =>
    rw [hA] at h
    obtain ⟨rts, cs1⟩ := p
    simp only at h
    cases hB : chompLit infoLit cs1 with
    | none => rw [hB] at h; simp at h
    | some cs2 =>
      rw [hB] at h
      simp only at h
      cases hC : dotStarTail cs2 with
      | none => rw [hC] at h; simp at h
      | some g3 =>
        obtain ⟨d1, d2, d3⟩ := g3
        obtain ⟨tsStr, hcs, hts⟩ := matchTimestamp_sound cs rts cs1 hA
        have hcs1 := chompLit_sound infoLit cs1 cs2 hB
        obtain ⟨mid, suf, hmid, hmt⟩ := dotStarTail_sound cs2 (d1, d2, d3) hC
        obtain ⟨tailRest, hsuf, hsd1, hsd2, hsd3⟩ := matchTail_sound suf d1 d2 d3 hmt
        refine ⟨tsStr ++ infoLit ++ mid ++ latLit ++ decString d1 ++ lonLit ++
          decString d2 ++ altLit ++ decString d3, tailRest, ?_, ?_⟩
        · rw [hcs, hcs1, hmid, hsuf]
          simp [List.append_assoc]
        · exact ⟨tsStr, mid, decString d1, decString d2, decString d3, rfl,
            hts, hsd1, hsd2, hsd3⟩

/-- Completeness of the anchored whole-pattern matcher on a conforming
segment, whatever follows it. -/
theorem matchAt_isSome :
    ∀ (seg post : List Char), PatternSeg seg →
      (matchAt (seg ++ post)).isSome = true := by
  intro seg post hseg
  obtain ⟨tsStr, mid, s1, s2, s3, hdecomp, hts, h1, h2, h3⟩ := hseg
  subst hdecomp
  obtain ⟨rts, hA⟩ := matchTimestamp_complete tsStr
    (infoLit ++ (mid ++ (latLit ++ (s1 ++ (lonLit ++ (s2 ++ (altLit ++ (s3 ++ post))))))))
    hts
  unfold matchAt
  rw [show (tsStr ++ infoLit ++ mid ++ latLit ++ s1 ++ lonLit ++ s2 ++ altLit ++ s3)
      ++ post = tsStr ++ (infoLit ++ (mid ++ (latLit ++ (s1 ++ (lonLit ++ (s2 ++
      (altLit ++ (s3 ++ post)))))))) by simp]
  rw [hA]
  simp only
  rw [chompLit_complete]
  simp only
  have hmt := matchTail_isSome s1 s2 s3 post h1 h2 h3
  have hds := dotStarTail_isSome mid
    (latLit ++ (s1 ++ (lonLit ++ (s2 ++ (altLit ++ (s3 ++ post)))))) hmt
  rw [Option.isSome_iff_exists] at hds
  obtain ⟨g3, hg3⟩ := hds
  rw [hg3]
  obtain ⟨d1, d2, d3⟩ := g3
  rfl

/-- Soundness of the search: a successful search means some contiguous
segment of the line conforms to the pattern. -/
theorem cotSearch_sound :
    ∀ (line : List Char) (g : CotGroups), cotSearch line = some g →
      ContainsPattern line := by
  intro line
  induction line with
  | nil =>
    intro g h
    obtain ⟨seg, post, hsp, hps⟩ := matchAt_sound [] g h
    exact ⟨[], seg, post, by simpa using hsp, hps⟩
  | cons c t ih =>
    intro g h
    rw [cotSearch] at h
    cases hA : matchAt (c :: t) with
    | some g2 =>
      obtain ⟨seg, post, hsp, hps⟩ := matchAt_sound (c :: t) g2 hA
      exact ⟨[], seg, post, by simpa using hsp, hps⟩
    | none =>
      rw [hA] at h
      obtain ⟨pre, seg, post, hsp, hps⟩ := ih g h
      exact ⟨c :: pre, seg, post, by simp [hsp], hps⟩

/-- Success of the search on any input where the anchored matcher succeeds
at the current position. -/
theorem cotSearch_isSome_of_matchAt :
    ∀ (cs : List Char), (matchAt cs).isSome = true →
      (cotSearch cs).isSome = true := by
  intro cs h
  cases cs with
  | nil => rw [cotSearch]; exact h
  | cons c t =>
    rw [cotSearch]
    cases hA : matchAt (c :: t) with
    | some g => rfl
    | none => rw [hA] at h; simp at h

/-- Completeness of the search: if some contiguous segment of the line
conforms to the pattern, the search succeeds. -/
theorem cotSearch_isSome :
    ∀ (line : List Char), ContainsPattern line → (cotSearch line).isSome = true := by
  intro line hcp
  obtain ⟨pre, seg, post, hdecomp, hps⟩ := hcp
  subst hdecomp
  induction pre with
  | nil =>
    refine cotSearch_isSome_of_matchAt _ ?_
    rw [show ([] ++ seg) ++ post = seg ++ post by simp]
    exact matchAt_isSome seg post hps
  | cons c pret ih =>
    rw [show ((c :: pret) ++ seg) ++ post = c :: ((pret ++ seg) ++ post) by simp]
    rw [cotSearch]
    cases hA : matchAt (c :: ((pret ++ seg) ++ post)) with
    | some g => rfl
    | none => exact ih

/-- Sum of the twelve month lengths of a year equals the year length. -/
theorem daysBeforeMonth_13 (y : Nat) : daysBeforeMonth y 13 = daysInYear y := by
  have hexp : daysBeforeMonth y 13 =
      0 + daysInMonth y 0 + daysInMonth y 1 + daysInMonth y 2 + daysInMonth y 3 +
      daysInMonth y 4 + daysInMonth y 5 + daysInMonth y 6 + daysInMonth y 7 +
      daysInMonth y 8 + daysInMonth y 9 + daysInMonth y 10 + daysInMonth y 11 +
      daysInMonth y 12 := rfl
  rw [hexp]
  simp only [show daysInMonth y 0 = 0 from rfl, show daysInMonth y 1 = 31 from rfl,
    show daysInMonth y 2 = (if isLeap y then 29 else 28) from rfl,
    show daysInMonth y 3 = 31 from rfl, show daysInMonth y 4 = 30 from rfl,
    show daysInMonth y 5 = 31 from rfl, show daysInMonth y 6 = 30 from rfl,
    show daysInMonth y 7 = 31 from rfl, show daysInMonth y 8 = 31 from rfl,
    show daysInMonth y 9 = 30 from rfl, show daysInMonth y 10 = 31 from rfl,
    show daysInMonth y 11 = 30 from rfl, show daysInMonth y 12 = 31 from rfl,
    daysInYear]
  cases isLeap y <;> norm_num

/-- Adding five minutes with calendar rollover advances absolute time by
exactly five minutes (300000 milliseconds) on any valid timestamp. -/
theorem toMillis_add5Min :
    ∀ t : Timestamp, t.valid → (add5Min t).toMillis = t.toMillis + 300000 := by
  intro t hv
  obtain ⟨hy, hm1, hm2, hd1, hd2, hh, hmi, hs, hms⟩ := hv
  unfold add5Min
  by_cases h1 : t.minute + 5 < 60
  · rw [if_pos h1]
    simp only [Timestamp.toMillis]
    omega
  · rw [if_neg h1]
    by_cases h2 : t.hour + 1 < 24
    · rw [if_pos h2]
      simp only [Timestamp.toMillis]
      omega
    · rw [if_neg h2]
      by_cases h3 : t.day + 1 ≤ daysInMonth t.year t.month
      · rw [if_pos h3]
        simp only [Timestamp.toMillis]
        omega
      · rw [if_neg h3]
        by_cases h4 : t.month + 1 ≤ 12
        · rw [if_pos h4]
          simp only [Timestamp.toMillis]
          have hdim : daysBeforeMonth t.year (t.month + 1) =
              daysBeforeMonth t.year t.month + daysInMonth t.year t.month := rfl
          rw [hdim]
          omega
        · rw [if_neg h4]
          simp only [Timestamp.toMillis]
          have hmonth12 : t.month = 12 := by omega
          have hdim12 : daysInMonth t.year 12 = 31 := rfl
          have hy1 : daysBeforeYear (t.year + 1) =
              daysBeforeYear t.year + daysInYear t.year := rfl
          have hbm1 : daysBeforeMonth (t.year + 1) 1 = 0 := rfl
          have hx : daysBeforeMonth t.year 12 + 31 = daysInYear t.year := by
            rw [← daysBeforeMonth_13 t.year]
            rfl
          rw [hmonth12] at hd2 h3 ⊢
          rw [hy1, hbm1]
          omega

/-- A scan abort anywhere in a suffix of the lines propagates to the whole
list of lines: no prefix of collected records survives. -/
theorem scanGo_append_none :
    ∀ (s e : Timestamp) (xs ys : List (List Char)), scanGo s e ys = none →
      scanGo s e (xs ++ ys) = none := by
  intro s e xs ys hys
  induction xs with
  | nil => simpa using hys
  | cons l xst ih =>
    rw [List.cons_append, scanGo]
    cases hA : cotSearch l with
    | none => exact ih
    | some g =>
      simp only
      cases hB : parseTimestamp g.ts with
      | none => rfl
      | some t =>
        simp only
        by_cases hw : (Timestamp.le s t && Timestamp.le t e) = true
        · rw [if_pos hw, ih]
          rfl
        · rw [if_neg hw]
          exact ih

/-- Any line whose match succeeds but whose timestamp fails calendar
validation aborts the whole scan, wherever it sits in the file. -/
theorem scanGo_abort :
    ∀ (s e : Timestamp) (pre post : List (List Char)) (line : List Char),
      abortsLine line = true → scanGo s e (pre ++ line :: post) = none := by
  intro s e pre post line hab
  apply scanGo_append_none
  rw [scanGo]
  unfold abortsLine at hab
  cases hA : cotSearch line with
  | none => rw [hA] at hab; simp at hab
  | some g =>
    rw [hA] at hab
    simp only at hab ⊢
    cases hB : parseTimestamp g.ts with
    | none => rfl
    | some t => rw [hB] at hab; simp at hab

/-- When no line aborts, the scan is exactly the per-line record function
mapped over the file in order. -/
theorem scanGo_filterMap :
    ∀ (s e : Timestamp) (lines : List (List Char)),
      (∀ l ∈ lines, abortsLine l = false) →
      scanGo s e lines = some (lines.filterMap (specRecord s e)) := by
  intro s e lines
  induction lines with
  | nil => intro _; rfl
  | cons l rest ih =>
    intro hnoab
    have hrest := ih (fun x hx => hnoab x (List.mem_cons_of_mem l hx))
    rw [scanGo]
    cases hA : cotSearch l with
    | none =>
      have hsp : specRecord s e l = none := by
        unfold specRecord
        rw [hA]
      rw [List.filterMap_cons_none hsp]
      exact hrest
    | some g =>
      simp only
      cases hB : parseTimestamp g.ts with
      | none =>
        have hfalse := hnoab l (List.mem_cons_self l rest)
        unfold abortsLine at hfalse
        rw [hA] at hfalse
        simp only at hfalse
        rw [hB] at hfalse
        simp at hfalse
      | some t =>
        simp only
        by_cases hw : (Timestamp.le s t && Timestamp.le t e) = true
        · have hsp : specRecord s e l =
              some ⟨t, ratOfDec g.lat, ratOfDec g.lon, ratOfDec g.alt⟩ := by
            unfold specRecord
            rw [hA]
            simp only
            rw [hB]
            simp only
            rw [if_pos hw]
          rw [if_pos hw, hrest, List.filterMap_cons_some hsp]
          rfl
        · have hsp : specRecord s e l = none := by
            unfold specRecord
            rw [hA]
            simp only
            rw [hB]
            simp only
            rw [if_neg hw]
          rw [if_neg hw, List.filterMap_cons_none hsp]
          exact hrest

/-- A line the search does not match contributes nothing to the scan: the
scan of a file containing it equals the scan of the file without it. -/
theorem scanGo_skip :
    ∀ (s e : Timestamp) (pre post : List (List Char)) (line : List Char),
      cotSearch line = none →
      scanGo s e (pre ++ line :: post) = scanGo s e (pre ++ post) := by
  intro s e pre post line hA
  induction pre with
  | nil =>
    rw [List.nil_append, List.nil_append, scanGo, hA]
  | cons l pret ih =>
    rw [List.cons_append, List.cons_append, scanGo]
    conv_rhs => rw [scanGo]
    cases hB : cotSearch l with
    | none => exact ih
    | some g =>
      simp only
      cases hC : parseTimestamp g.ts with
      | none => rfl
      | some t =>
        simp only
        by_cases hw : (Timestamp.le s t && Timestamp.le t e) = true
        · rw [if_pos hw, if_pos hw, ih]
        · rw [if_neg hw, if_neg hw]
          exact ih

/-- Any segment conforming to the pattern starts with a digit (the first
character of the year group). -/
theorem patternSeg_head_digit :
    ∀ l : List Char, PatternSeg l → ∃ c t, l = c :: t ∧ c.isDigit = true := by
  intro l hp
  obtain ⟨tsStr, mid, s1, s2, s3, hdecomp, hts, h1, h2, h3⟩ := hp
  obtain ⟨yd, mod, dd, hd, mid2, sd, msd, htsdecomp, hl1, hg1, hrest⟩ := hts
  cases yd with
  | nil => simp at hl1
  | cons c ydt =>
    refine ⟨c, (ydt ++ '-' :: (mod ++ '-' :: (dd ++ ' ' :: (hd ++ ':' ::
      (mid2 ++ ':' :: (sd ++ ',' :: msd)))))) ++ infoLit ++ mid ++ latLit ++ s1 ++
      lonLit ++ s2 ++ altLit ++ s3, ?_, hg1 c (List.mem_cons_self c ydt)⟩
    rw [hdecomp, htsdecomp]
    simp

/-- A line whose first character is not a digit does not conform, as a
whole line, to the pattern. -/
theorem exactPattern_head :
    ∀ (c : Char) (t : List Char), ExactPattern (c :: t) → c.isDigit = true := by
  intro c t hex
  obtain ⟨c2, t2, hct, hcd⟩ := patternSeg_head_digit (c :: t) hex
  injection hct with h1 h2
  rw [h1]
  exact hcd

/-- Claim C1, counterexample: with the connection established and
`sendall` raising, `send_cot_to_tak` returns False with the connection
still open — the claim that every failure path closes the connection
before returning is false on the code. -/
theorem c1_counterexample :
    (runSend envSendFail 1 2 3 exTs).connected = true ∧
    (runSend envSendFail 1 2 3 exTs).result = false ∧
    (runSend envSendFail 1 2 3 exTs).closed = false :=
  ⟨rfl, rfl, rfl⟩

/-- Claim C1, amended: `send_cot_to_tak` closes its socket exactly on the
success path; on every exception path it returns False without closing,
so the connection is closed if and only if the call returns True. -/
theorem c1_closed_iff_success :
    ∀ (env : SendEnv) (lat lon alt : ℚ) (ts : Timestamp),
      (runSend env lat lon alt ts).closed = (runSend env lat lon alt ts).result := by
  intro env lat lon alt ts
  rcases env with ⟨c, w, cn, sd, rv⟩
  cases c with
  | some e => rfl
  | none =>
    cases w with
    | some e => rfl
    | none =>
      cases cn with
      | some e => rfl
      | none =>
        cases sd with
        | some e => rfl
        | none =>
          cases rv with
          | data s => rfl
          | timeout => rfl
          | raised e => cases e <;> rfl

/-- Claim C2, amended: the scanner treats a line as a match if and only if
some contiguous segment of the line conforms to the position pattern
(Python re.search semantics, not whole-line conformance), and a line
without such a segment contributes nothing to the scan. -/
theorem c2_match_iff_contains :
    ∀ line : List Char,
      ((cotSearch line).isSome = true ↔ ContainsPattern line) ∧
      (cotSearch line = none → ∀ (s e : Timestamp) (pre post : List (List Char)),
        parse_log_for_positions (.content (pre ++ line :: post)) s e =
          parse_log_for_positions (.content (pre ++ post)) s e) := by
  intro line
  constructor
  · constructor
    · intro h
      rw [Option.isSome_iff_exists] at h
      obtain ⟨g, hg⟩ := h
      exact cotSearch_sound line g hg
    · exact cotSearch_isSome line
  · intro hA s e pre post
    unfold parse_log_for_positions
    simp only
    rw [scanGo_skip s e pre post line hA]

/-- Claim C2, witness: a conforming line is a match, and a line with an
integer altitude is skipped without affecting the rest of the scan. -/
theorem c2_witness :
    ContainsPattern c4GoodLine ∧
    parse_log_for_positions (.content [c10IntAlt]) winStart winEnd =
      parse_log_for_positions (.content []) winStart winEnd :=
  ⟨(c2_match_iff_contains c4GoodLine).1.mp (by decide),
   (c2_match_iff_contains c10IntAlt).2 (by decide) winStart winEnd [] []⟩

/-- Claim C2, counterexample: a junk character in front of a conforming
core makes the whole line non-conforming, yet the code matches the line,
because `re.search` scans for the pattern anywhere in the line. -/
theorem c2_counterexample :
    (cotSearch exC2Line).isSome = true ∧ ¬ ExactPattern exC2Line := by
  refine ⟨by decide, fun hex => ?_⟩
  have hd := exactPattern_head 'X' exC2Rest hex
  simp at hd

/-- Claim C3: the CoT event constructed inside `send_cot_to_tak` from a
record carries start = time = the record timestamp and stale = timestamp
plus five minutes (computed at send time from the bare record, which holds
no stale field); on any valid timestamp the offset is exactly five minutes
of absolute time. -/
theorem c3_stale_start_offset :
    ∀ (lat lon alt : ℚ) (ts : Timestamp),
      (buildCotEvent lat lon alt ts).start = ts ∧
      (buildCotEvent lat lon alt ts).time = ts ∧
      (buildCotEvent lat lon alt ts).stale = add5Min ts ∧
      (ts.valid → (buildCotEvent lat lon alt ts).stale.toMillis =
        (buildCotEvent lat lon alt ts).start.toMillis + 5 * 60 * 1000) := by
  intro lat lon alt ts
  refine ⟨rfl, rfl, rfl, fun hv => ?_⟩
  show (add5Min ts).toMillis = ts.toMillis + 5 * 60 * 1000
  rw [toMillis_add5Min ts hv]

/-- Claim C3, witness: the five-minute offset at a concrete valid
timestamp that rolls over a year boundary. -/
theorem c3_witness :
    (Timestamp.valid ⟨2024, 12, 31, 23, 58, 30, 123⟩) ∧
    (buildCotEvent 1 2 3 ⟨2024, 12, 31, 23, 58, 30, 123⟩).stale.toMillis =
      (buildCotEvent 1 2 3 ⟨2024, 12, 31, 23, 58, 30, 123⟩).start.toMillis + 5 * 60 * 1000 :=
  ⟨by decide, (c3_stale_start_offset 1 2 3 ⟨2024, 12, 31, 23, 58, 30, 123⟩).2.2.2 (by decide)⟩

/-- Claim C4, amended: provided every matched timestamp passes calendar
validation, the scanner returns, in file line order, exactly one record
per matching line whose parsed timestamp lies in the inclusive window,
with the numeric fields parsed from the captured groups, and every other
line contributes no record; a matching line with an invalid timestamp
instead aborts the whole scan to the empty result. -/
theorem c4_scan_is_per_line_filter :
    ∀ (lines : List (List Char)) (s e : Timestamp),
      (∀ l ∈ lines, abortsLine l = false) →
      parse_log_for_positions (.content lines) s e =
        lines.filterMap (specRecord s e) := by
  intro lines s e hnoab
  unfold parse_log_for_positions
  simp only
  rw [scanGo_filterMap s e lines hnoab]
  rfl

/-- Claim C4, witness: a one-line file evaluates to exactly the per-line
record. -/
theorem c4_witness :
    (∀ l ∈ [c4GoodLine], abortsLine l = false) ∧
    parse_log_for_positions (.content [c4GoodLine]) winStart winEnd = [c4GoodRec] := by
  refine ⟨by decide, ?_⟩
  rw [c4_scan_is_per_line_filter [c4GoodLine] winStart winEnd (by decide)]
  rfl

/-- Claim C4, counterexample: a file holding a matching in-window line and
a line with month 13 yields the empty result, not one record per matching
in-window line — the `ValueError` from the second line aborts the scan and
discards the first record. -/
theorem c4_counterexample :
    parse_log_for_positions (.content [c4GoodLine, c4PoisonLine]) winStart winEnd = [] ∧
    specRecord winStart winEnd c4GoodLine = some c4GoodRec :=
  ⟨rfl, rfl⟩

/-- Claim C5: a missing log file, an I/O error at open, and an exception
raised mid-scan (a matched line whose timestamp fails validation) all make
the scanner return the empty list — never an exception — discarding any
records already collected. -/
theorem c5_error_paths_empty :
    ∀ (s e : Timestamp),
      parse_log_for_positions .missing s e = [] ∧
      parse_log_for_positions .ioError s e = [] ∧
      (∀ (pre post : List (List Char)) (line : List Char), abortsLine line = true →
        parse_log_for_positions (.content (pre ++ line :: post)) s e = []) := by
  intro s e
  refine ⟨rfl, rfl, fun pre post line hab => ?_⟩
  unfold parse_log_for_positions
  simp only
  rw [scanGo_abort s e pre post line hab]
  rfl

/-- Claim C5, witness: the month-13 line aborts a scan that had already
collected a valid record. -/
theorem c5_witness :
    abortsLine c4PoisonLine = true ∧
    parse_log_for_positions (.content [c4GoodLine, c4PoisonLine]) winStart winEnd = [] :=
  ⟨by decide,
   (c5_error_paths_empty winStart winEnd).2.2 [c4GoodLine] [] c4PoisonLine (by decide)⟩

/-- Claim C6, amended: `send_cot_to_tak` returns True exactly when none of
socket creation, TLS wrap, connect and sendall raises and the response
read either succeeds or times out; any raised exception makes it return
False with the handler chosen by the exception class (ConnectionRefused
and SSLError to the SSL/connection handler, everything else to the
generic handler), and a response-read timeout on an otherwise clean send
yields True with the no-response log. -/
theorem c6_outcome_classification :
    ∀ (env : SendEnv) (lat lon alt : ℚ) (ts : Timestamp),
      ((runSend env lat lon alt ts).result = (firstExc env).isNone) ∧
      ((runSend env lat lon alt ts).errClass = (firstExc env).map classifyExc) ∧
      ((firstExc env).isNone = true → env.recv = RecvOutcome.timeout →
        (runSend env lat lon alt ts).noResponse = true) := by
  intro env lat lon alt ts
  rcases env with ⟨c, w, cn, sd, rv⟩
  cases c with
  | some e => exact ⟨rfl, rfl, fun h1 h2 => by simp [firstExc] at h1⟩
  | none =>
    cases w with
    | some e => exact ⟨rfl, rfl, fun h1 h2 => by simp [firstExc] at h1⟩
    | none =>
      cases cn with
      | some e => exact ⟨rfl, rfl, fun h1 h2 => by simp [firstExc] at h1⟩
      | none =>
        cases sd with
        | some e => exact ⟨rfl, rfl, fun h1 h2 => by simp [firstExc] at h1⟩
        | none =>
          cases rv with
          | data s => exact ⟨rfl, rfl, fun h1 h2 => by simp at h2⟩
          | timeout => exact ⟨rfl, rfl, fun h1 h2 => rfl⟩
          | raised e => cases e <;> exact ⟨rfl, rfl, fun h1 h2 => by simp at h2⟩

/-- Claim C6, witness: the fully successful send whose read times out
returns True and records the no-response case. -/
theorem c6_witness :
    (runSend envAllOk 1 2 3 exTs).result = true ∧
    (runSend envAllOk 1 2 3 exTs).noResponse = true :=
  ⟨((c6_outcome_classification envAllOk 1 2 3 exTs).1).trans rfl,
   (c6_outcome_classification envAllOk 1 2 3 exTs).2.2 rfl rfl⟩

/-- Claim C6, counterexample: when connect, handshake and sendall all
complete without exception but the response read raises a non-timeout
exception, the function returns False — contradicting the claim that it
returns True whenever connect, handshake and send complete without
exception. -/
theorem c6_counterexample :
    envRecvRaise.createExc = none ∧ envRecvRaise.wrapExc = none ∧
    envRecvRaise.connectExc = none ∧ envRecvRaise.sendallExc = none ∧
    (runSend envRecvRaise 1 2 3 exTs).result = false :=
  ⟨rfl, rfl, rfl, rfl, rfl⟩

/-- Claim C7: the replay loop visits every record exactly once in scanner
order whatever the send outcomes are (no abort on failure), emitting after
each successful send one sleep of REFRESH_INTERVAL seconds and after each
failed send no sleep. -/
theorem c7_replay_trace :
    ∀ (envAt : Nat → SendEnv) (i : Nat) (rs : List Record),
      replayLoop envAt i rs =
        ((List.range' i rs.length).zip rs).flatMap
          (fun p => ReplayAction.send p.2 (sendOk (envAt p.1) p.2) ::
            (if sendOk (envAt p.1) p.2 then [ReplayAction.sleep REFRESH_INTERVAL] else [])) ∧
      (replayLoop envAt i rs).filterMap sentRecord = rs := by
  intro envAt i rs
  induction rs generalizing i with
  | nil => exact ⟨rfl, rfl⟩
  | cons r rest ih =>
    obtain ⟨ih1, ih2⟩ := ih (i + 1)
    constructor
    · rw [replayLoop, List.length_cons, List.range'_succ, List.zip_cons_cons,
        List.flatMap_cons]
      simp only
      by_cases hok : sendOk (envAt i) r = true
      · rw [if_pos hok, if_pos hok, ih1, hok]
        rfl
      · have hf : sendOk (envAt i) r = false := by
          revert hok
          cases sendOk (envAt i) r <;> simp
        rw [if_neg hok, if_neg hok, ih1, hf]
        rfl
    · rw [replayLoop]
      by_cases hok : sendOk (envAt i) r = true
      · rw [if_pos hok]
        simp [sentRecord, ih2]
      · rw [if_neg hok]
        simp [sentRecord, ih2]

/-- Claim C8: the scan is a pure function of the file state and the
window; two calls with the same arguments yield identical ordered
output. -/
theorem c8_deterministic :
    ∀ (input1 input2 : LogInput) (s1 s2 e1 e2 : Timestamp),
      input1 = input2 → s1 = s2 → e1 = e2 →
      parse_log_for_positions input1 s1 e1 = parse_log_for_positions input2 s2 e2 := by
  intro input1 input2 s1 s2 e1 e2 h1 h2 h3
  rw [h1, h2, h3]

/-- Claim C8, witness: two identical concrete calls agree. -/
theorem c8_witness :
    parse_log_for_positions (.content [c4GoodLine]) winStart winEnd =
      parse_log_for_positions (.content [c4GoodLine]) winStart winEnd :=
  c8_deterministic (.content [c4GoodLine]) (.content [c4GoodLine])
    winStart winStart winEnd winEnd rfl rfl rfl

/-- Claim C9: the parsed timestamp keeps its millisecond component and the
inclusive window comparison uses it: the line stamped 10:00:00,500 is
excluded by the end time 10:00:00,000 but included, with its 500
milliseconds intact, by the end time 10:00:00,500. -/
theorem c9_millisecond_window :
    parse_log_for_positions (.content [c9Line]) winStart c9EndSec = [] ∧
    parse_log_for_positions (.content [c9Line]) winStart c9EndMs = [c9Rec] :=
  ⟨rfl, rfl⟩

/-- Claim C10: every numeric field needs a digit on each side of a
mandatory decimal point, a leading minus is allowed only on lat and lon,
and no sign is allowed on alt: the integer-altitude, plus-signed-latitude
and negative-altitude lines are all skipped, while the same line with a
negative latitude or a decimal altitude matches. -/
theorem c10_numeric_field_shape :
    cotSearch c10IntAlt = none ∧
    cotSearch c10PlusLat = none ∧
    cotSearch c10NegAlt = none ∧
    (cotSearch c10NegLat).isSome = true ∧
    (cotSearch c4GoodLine).isSome = true := by
  refine ⟨by decide, by decide, by decide, by decide, by decide⟩
